import Mathlib

/-!
Verification development for the `discoverability` manual-page indexer and
search tool.  The Python sources (`page_interface.py`, `index.py`,
`discoverability.py`, `model.py`, `errors.py`) are shallowly embedded below:
strings are `List Char` (the sources only ever deal with ASCII text, so the
ASCII fragment of Python's predicates `isnumeric`, `isupper`, `isspace` is
modelled), fallible code returns `Except PyErr`, and the external pieces of
state a function reads (file modification time, `groff` stdout) are passed
as explicit arguments.
-/

/-- The Python exception kinds the embedded code can raise. -/
inductive PyErr where
  | valueError
  | indexError
  | nameError
  | noDataRead
  deriving DecidableEq, Repr

abbrev Str := List Char

/-- ASCII fragment of Python's `str.isspace` character test. -/
def pyIsSpaceChar (c : Char) : Bool :=
  c = ' ' || c = '\t' || c = '\n' || c = '\r' || c = '\x0b' || c = '\x0c'

/-- Python `s.isspace()`: nonempty and all characters whitespace. -/
def pyIsSpace (s : Str) : Bool :=
  !s.isEmpty && s.all pyIsSpaceChar

/-- Python `s.isnumeric()` on the ASCII fragment: nonempty, all digits. -/
def pyIsNumeric (s : Str) : Bool :=
  !s.isEmpty && s.all Char.isDigit

/-- Python `s.isupper()` on the ASCII fragment: at least one cased (here:
alphabetic) character and no lowercase cased character. -/
def pyIsUpper (s : Str) : Bool :=
  s.any Char.isAlpha && s.all (fun c => !c.isLower)

/-- Python `s.isalpha()` on the ASCII fragment. -/
def pyIsAlpha (s : Str) : Bool :=
  !s.isEmpty && s.all Char.isAlpha

/-- Python `s.strip()`: drop leading and trailing whitespace. -/
def pyStrip (s : Str) : Str :=
  ((s.dropWhile pyIsSpaceChar).reverse.dropWhile pyIsSpaceChar).reverse

/-- Helper for `pySplitWs`: `cur` is the reversed word currently being read. -/
def pySplitWsAux (cur : Str) : Str → List Str
  | [] => if cur.isEmpty then [] else [cur.reverse]
  | c :: rest =>
    if pyIsSpaceChar c then
      if cur.isEmpty then pySplitWsAux [] rest
      else cur.reverse :: pySplitWsAux [] rest
    else pySplitWsAux (c :: cur) rest

/-- Python `s.split()` with no argument: split on whitespace runs,
no empty pieces. -/
def pySplitWs (s : Str) : List Str :=
  pySplitWsAux [] s

/-- Python `s.split(sep)` for a one-character separator: empty pieces kept,
`"".split(sep) = [""]`. -/
def pySplitOn (sep : Char) : Str → List Str
  | [] => [[]]
  | c :: rest =>
    if c = sep then [] :: pySplitOn sep rest
    else
      match pySplitOn sep rest with
      | [] => [[c]]
      | t :: ts => (c :: t) :: ts

/-- Python `sep.join(pieces)` for a one-character separator. -/
def pyJoin (sep : Char) : List Str → Str
  | [] => []
  | [s] => s
  | s :: rest => s ++ sep :: pyJoin sep rest

/-- Value of a digit string (the ASCII fragment of Python `int(s)` on the
strings accepted by `isnumeric`). -/
def digitsToNat (s : Str) : Nat :=
  s.foldl (fun acc c => 10 * acc + (c.toNat - '0'.toNat)) 0

/-- Python negative indexing `l[-k]` for `k ≥ 1`: `none` models `IndexError`. -/
def negIdx (l : List α) (k : Nat) : Option α :=
  if k ≤ l.length then l.get? (l.length - k) else none

namespace PageInterface

/-!
Embedding of `page_interface.py`.
-/

/-- `ManualPage._name_valid(split_name)`.  Python evaluates
`split_name[-2].isnumeric()` first, so a list with fewer than two elements
raises `IndexError` before the length test. -/
def nameValid (split_name : List Str) : Except PyErr Bool :=
  match negIdx split_name 2 with
  | none => .error .indexError
  | some t => .ok (pyIsNumeric t && decide (split_name.length ≥ 3))

/-- `ManualPage._get_name_and_section(path)` restricted to the final path
component (the source first splits on the path separator and keeps the last
component). -/
def getNameAndSection (filename : Str) : Except PyErr (Str × Nat) :=
  let split_name := pySplitOn '.' filename
  if pyIsNumeric (split_name.getLastD []) then
    .ok (pyJoin '.' split_name.dropLast, digitsToNat (split_name.getLastD []))
  else do
    let valid ← nameValid split_name
    if !valid then
      .error .valueError
    else
      .ok (pyJoin '.' split_name.dropLast.dropLast,
           digitsToNat ((negIdx split_name 2).getD []))

/-- `ManualPage._get_name_and_section` on a full path: split on the path
separator, keep the final component. -/
def getNameAndSectionPath (path : Str) : Except PyErr (Str × Nat) :=
  getNameAndSection ((pySplitOn '/' path).getLastD [])

end PageInterface

/-- One pass of `re.sub("(.)\x08\\1", r"\1", line)`: leftmost, non-overlapping
matches; `.` matches any character except a newline. -/
def undoBold : Str → Str
  | a :: b :: c :: rest =>
    if a ≠ '\n' && b = '\x08' && c = a then a :: undoBold rest
    else a :: undoBold (b :: c :: rest)
  | s => s

/-- One pass of `re.sub("_\x08(.)", r"\1", line)`. -/
def undoItalics : Str → Str
  | a :: b :: c :: rest =>
    if a = '_' && b = '\x08' && c ≠ '\n' then c :: undoItalics rest
    else a :: undoItalics (b :: c :: rest)
  | s => s

/-- `_degrotty(full_text)` from `page_interface.py`. -/
def degrotty (full_text : List Str) : List Str :=
  full_text.map (fun line => undoItalics (undoBold line))


/-- Python `s.splitlines()` for ASCII text: split on newline, with no entry
for a final trailing newline. -/
def pySplitlines (s : Str) : List Str :=
  if s.isEmpty then []
  else
    let parts := pySplitOn '\n' s
    if parts.getLastD [] = ([] : Str) then parts.dropLast else parts

/-- String of a natural number, as Python `str`/f-string formatting. -/
def natStr (n : Nat) : Str :=
  (Nat.repr n).toList

namespace PageInterface

/-- The mutable state of a `page_interface.ManualPage` object.  `sections`
is a Python `dict` (insertion-ordered association list); `hashes` is the
`_hashes` set, whose elements are the values returned by
`hasher.update(...)` calls — in Python that return value is always `None`,
which the model makes explicit as `Option Nat` with only `none` ever
inserted. -/
structure PageState where
  paths : List Str
  title : Str
  sectionNumber : Nat
  sections : List (Str × Str)
  lastModificationTime : Int
  hashes : List (Option Nat)
  deriving DecidableEq, Repr

/-- `_is_section_title(line)`: fully uppercase, first character not
whitespace, every whitespace-separated token purely alphabetic.  Python's
`and` short-circuits, so `line[0]` is never indexed on an empty line
(`''.isupper()` is already false). -/
def isSectionTitle (line : Str) : Bool :=
  pyIsUpper line &&
    (match line.head? with
     | none => false
     | some c => !pyIsSpaceChar c) &&
    (pySplitWs line).all pyIsAlpha

/-- `section_name in self._sections` on the insertion-ordered dict. -/
def dictContains (d : List (Str × Str)) (k : Str) : Bool :=
  d.any (fun p => decide (p.1 = k))

/-- `self._sections[k] += v` (the key is present whenever the source runs
this statement). -/
def dictAppendVal (d : List (Str × Str)) (k : Str) (v : Str) :
    List (Str × Str) :=
  d.map (fun p => if p.1 = k then (p.1, p.2 ++ v) else p)

/-- Phase 2 of `ManualPage._parse`: scan lines, tracking the currently open
desired section, skipping blank lines, opening sections at title lines and
accumulating stripped line text followed by one space. -/
def parseLines (desired : List Str) :
    List Str → Option Str → List (Str × Str) → List (Str × Str)
  | [], _, secs => secs
  | line :: rest, current, secs =>
    if line = [] || pyIsSpace line then parseLines desired rest current secs
    else if isSectionTitle line then
      let isolated := pyStrip line
      if desired.contains isolated then
        let secs' := if dictContains secs isolated
                     then dictAppendVal secs isolated [' ']
                     else secs ++ [(isolated, [])]
        parseLines desired rest (some isolated) secs'
      else parseLines desired rest none secs
    else
      match current with
      | some cur =>
        parseLines desired rest current
          (dictAppendVal secs cur (pyStrip line ++ [' ']))
      | none => parseLines desired rest none secs

/-- `ManualPage._parse(zipped_file, path)` given the formatter stdout for
this path (ASCII, as the source decodes with errors ignored).  The content
hash is `this_hash = hasher.update(groff_result.stdout)` — in Python,
`update` mutates the hasher and returns `None`, so the value stored and
looked up in `_hashes` is always `None`, independent of the content; the
model writes this as the constant `none`.  If every line of the degrottied
output is blank, the Phase-1 `while` loop runs past the end of the list and
raises `IndexError` (a path no claim exercises; the model drops the partial
mutation Python would keep on that path). -/
def parse (desired : List Str) (st : PageState) (stdout : Str) :
    Except PyErr PageState :=
  let thisHash : Option Nat := none
  if st.hashes.contains thisHash then .ok st
  else
    let st1 := { st with hashes := st.hashes ++ [thisHash] }
    let fullText := degrotty (pySplitlines stdout)
    if fullText.isEmpty then .ok st1
    else if fullText.all (fun l => pyStrip l = []) then .error .indexError
    else
      .ok { st1 with
              sections := parseLines desired (fullText.drop 1) none st1.sections }

/-- `ManualPage.record_path(path)`.  The file's modification time and
formatter stdout are passed explicitly.  The source computes
`max(os.path.getmtime(path), self._last_modification_time)` but assigns it
to the local variable `self_last_modification_time` (missing dot), so the
object field is never updated; the model keeps the dead local to mirror
that. -/
def recordPath (desired : List Str) (st : PageState) (path : Str)
    (mtime : Int) (stdout : Str) : Except PyErr PageState :=
  let st' := { st with paths := st.paths ++ [path] }
  let _selfLastModificationTime := max mtime st'.lastModificationTime
  parse desired st' stdout

/-- `ManualPage.__init__(path)`: resolve the key, initialise the fields
(`_last_modification_time = 0` sentinel), then `record_path(path)`. -/
def initPage (desired : List Str) (path : Str) (mtime : Int) (stdout : Str) :
    Except PyErr PageState := do
  let ts ← getNameAndSectionPath path
  recordPath desired
    { paths := [], title := ts.1, sectionNumber := ts.2, sections := [],
      lastModificationTime := 0, hashes := [] }
    path mtime stdout

end PageInterface

namespace Model

/-- `text.replace("- ", "")`: remove hyphen-space pairs, left to right,
non-overlapping. -/
def replaceDashSpace : Str → Str
  | a :: b :: rest =>
    if a = '-' && b = ' ' then replaceDashSpace rest
    else a :: replaceDashSpace (b :: rest)
  | s => s

/-- `Model.preprocess(text)` from `model.py`: drop hyphen-space pairs, keep
ASCII letters, delete apostrophes, map every other character to a space,
collapse whitespace with a split/join round trip, lowercase. -/
def preprocess (text : Str) : Str :=
  let replaced := replaceDashSpace text
  let mapped := replaced.foldr
    (fun c acc =>
      if c.isAlpha then c :: acc
      else if c = '\'' then acc
      else ' ' :: acc) []
  (pyJoin ' ' (pySplitWs mapped)).map Char.toLower

end Model

namespace PageInterface

/-- `ManualPage._clean_data()`: returns whether any section exists and (when
some do) preprocesses every section value in place. -/
def cleanData (st : PageState) : Bool × PageState :=
  if st.sections.isEmpty then (false, st)
  else (true,
    { st with sections := st.sections.map (fun p => (p.1, Model.preprocess p.2)) })

/-- The cached per-page record built by `ManualPage.get_save_info` (the
JSON object values; `sectionNo` is the `"section"` key). -/
structure SaveInfo where
  title : Str
  sectionNo : Nat
  paths : List Str
  modification : Int
  sections : List (Str × Str)
  deriving DecidableEq, Repr

/-- `ManualPage.get_save_info()`: clean the data, raising `NoDataReadError`
when no sections were found, else return the compound title and the record. -/
def getSaveInfo (st : PageState) : Except PyErr (Str × SaveInfo) :=
  let cleaned := cleanData st
  if !cleaned.1 then .error .noDataRead
  else
    let st' := cleaned.2
    let compoundTitle := st'.title ++ ' ' :: '(' :: natStr st'.sectionNumber ++ [')']
    .ok (compoundTitle,
      { title := st'.title, sectionNo := st'.sectionNumber, paths := st'.paths,
        modification := st'.lastModificationTime, sections := st'.sections })

end PageInterface


/-- A desired-sections configuration containing only `NAME`. -/
def sampleDesired : List Str := [['N', 'A', 'M', 'E']]

/-- Sample formatter stdout: title line `x`, section `NAME`, body `foo`. -/
def sampleOut1 : Str := ['x', '\n', 'N', 'A', 'M', 'E', '\n', 'f', 'o', 'o']

/-- Sample formatter stdout with different body text `baz`. -/
def sampleOut2 : Str := ['x', '\n', 'N', 'A', 'M', 'E', '\n', 'b', 'a', 'z']

/-- Sample path `/m/x.1`. -/
def samplePath1 : Str := ['/', 'm', '/', 'x', '.', '1']

/-- Sample path `/n/x.1`, a distinct location for the same logical page. -/
def samplePath2 : Str := ['/', 'n', '/', 'x', '.', '1']

/-- The `ManualPage` state after `ManualPage(samplePath1)` with modification
time 5 and formatter stdout `sampleOut1`. -/
def samplePage1 : PageInterface.PageState :=
  { paths := [samplePath1], title := ['x'], sectionNumber := 1,
    sections := [(['N', 'A', 'M', 'E'], ['f', 'o', 'o', ' '])],
    lastModificationTime := 0, hashes := [none] }


namespace Index

/-!
Embedding of `index.py`.  This module has its own, older `ManualPage` class,
distinct from the one in `page_interface.py`: `_paths` is a Python `set`,
there is no name/section resolution, no content hashing and no degrotty
pass, extraction happens only while `_need_to_extract` holds, and
`_extract_info` *overwrites* `_last_modification_time` with the file's
mtime.  The `index()` walk is keyed by `os.path.realpath` of each file.
-/

/-- State of an `index.ManualPage`.  `paths` models the Python `set` as an
insertion-ordered list without duplicates; iteration order of a real Python
string set is not reproducible across interpreter runs, which is modelled
at save time by an explicit ordering parameter. -/
structure IdxPage where
  paths : List Str
  title : Option Str
  sections : Option (List (Str × Str))
  lastModificationTime : Option Int
  needToExtract : Bool
  deriving DecidableEq, Repr

/-- `self._paths.add(path)` on the modelled set. -/
def setAdd (l : List Str) (x : Str) : List Str :=
  if l.contains x then l else l ++ [x]

/-- `self._sections[k] += v` for the Phase-2 write (the branch is in fact
unreachable, because opening a section raises `NameError` first). -/
def dictAppendVal2 (d : List (Str × Str)) (k : Str) (v : Str) :
    List (Str × Str) :=
  d.map (fun p => if p.1 = k then (p.1, p.2 ++ v) else p)

/-- Phase 2 of `index.ManualPage._parse`: only literally empty lines are
skipped; a line whose first character is a non-space uppercase letter is
treated as a section title, but the code then computes
`isolated_section_name = line[0].split()[0]` — `line[0]` is a single
character — and, if that one-character name is desirable, evaluates the
undefined name `isolate_section_name`, raising `NameError`. -/
def parseLines2 (desired : List Str) :
    List Str → Option Str → List (Str × Str) → Except PyErr (List (Str × Str))
  | [], _, secs => .ok secs
  | line :: rest, current, secs =>
    match line with
    | [] => parseLines2 desired rest current secs
    | c :: _ =>
      if !pyIsSpaceChar c && c.isUpper then
        if desired.contains [c] then .error .nameError
        else parseLines2 desired rest none secs
      else
        match current with
        | some cur =>
          parseLines2 desired rest current
            (dictAppendVal2 secs cur ('\n' :: line))
        | none => parseLines2 desired rest none secs

/-- `index.ManualPage._parse(zipped_file)` given the formatter stdout.
Empty output leaves the state unchanged (still needing extraction); an
all-blank output makes the Phase-1 title scan run past the end of the list
(`IndexError`); otherwise the title is the first `(`-prefix of the first
whitespace token of the first non-blank line, Phase 2 runs on
`full_text[1:]` with a fresh section dict, and `_need_to_extract` is
cleared. -/
def parse (desired : List Str) (st : IdxPage) (stdout : Str) :
    Except PyErr IdxPage :=
  let fullText := pySplitlines stdout
  if fullText.isEmpty then .ok st
  else
    match fullText.find? (fun l => !(pyStrip l).isEmpty) with
    | none => .error .indexError
    | some titleLine =>
      let title := ((pySplitOn '(' ((pySplitWs (pyStrip titleLine)).headD [])).headD [])
      (parseLines2 desired (fullText.drop 1) none []).map
        (fun secs =>
          { st with title := some title, sections := some secs,
                    needToExtract := false })

/-- `index.ManualPage._extract_info(path)`: overwrite the modification time
with this file's mtime, then parse the formatter output. -/
def extractInfo (desired : List Str) (st : IdxPage) (mtime : Int)
    (stdout : Str) : Except PyErr IdxPage :=
  parse desired { st with lastModificationTime := some mtime } stdout

/-- `index.ManualPage.record_path(path)`: add the path to the set and
extract only while `_need_to_extract` holds. -/
def recordPath (desired : List Str) (st : IdxPage) (path : Str) (mtime : Int)
    (stdout : Str) : Except PyErr IdxPage :=
  let st' := { st with paths := setAdd st.paths path }
  if st'.needToExtract then extractInfo desired st' mtime stdout
  else .ok st'

/-- `index.ManualPage.__init__(path)` followed by the constructor's
`record_path(path)` call. -/
def initPage (desired : List Str) (path : Str) (mtime : Int) (stdout : Str) :
    Except PyErr IdxPage :=
  recordPath desired
    { paths := [], title := none, sections := none,
      lastModificationTime := none, needToExtract := true }
    path mtime stdout

/-- One file sighting during the `index()` walk: the joined walk path, its
canonical `os.path.realpath`, the file's modification time and the
formatter stdout its content produces. -/
structure WalkEntry where
  fullPath : Str
  realPath : Str
  mtime : Int
  stdout : Str
  deriving DecidableEq, Repr

/-- `pages[real_path].record_path(full_path)` on the insertion-ordered
`pages` dict. -/
def walkUpdate (desired : List Str) (e : WalkEntry) :
    List (Str × IdxPage) → Except PyErr (List (Str × IdxPage))
  | [] => .ok []
  | (k, pg) :: rest =>
    if k = e.realPath then
      (recordPath desired pg e.fullPath e.mtime e.stdout).map
        (fun pg' => (k, pg') :: rest)
    else
      (walkUpdate desired e rest).map (fun rest' => (k, pg) :: rest')

/-- The per-file loop of `index()`: first sight of a real path constructs
`ManualPage(real_path)` and stores it under the real path; later sightings
call `record_path(full_path)` on the stored page. -/
def walk (desired : List Str) :
    List WalkEntry → List (Str × IdxPage) → Except PyErr (List (Str × IdxPage))
  | [], pages => .ok pages
  | e :: rest, pages =>
    if pages.any (fun p => decide (p.1 = e.realPath)) then
      (walkUpdate desired e pages).bind (fun pages' => walk desired rest pages')
    else
      (initPage desired e.realPath e.mtime e.stdout).bind
        (fun pg => walk desired rest (pages ++ [(e.realPath, pg)]))

/-- The page-collection phase of `index(paths, verbose, cache_file)`, over
the sequence of file sightings the tree walk produces. -/
def indexPages (desired : List Str) (entries : List WalkEntry) :
    Except PyErr (List (Str × IdxPage)) :=
  walk desired entries []

/-- The JSON-cached record of `index.ManualPage.get_save_info`: only the
paths and the modification time are saved. -/
structure IdxSave where
  paths : List Str
  modification : Option Int
  deriving DecidableEq, Repr

/-- `index.ManualPage.get_save_info()`.  `list(self._paths)` enumerates a
Python `set` of strings, whose iteration order is not specified across
interpreter runs (string hashing is seed-randomised), so the enumeration
is passed in as an ordering oracle `ord` (a run-dependent permutation). -/
def getSaveInfo (ord : List Str → List Str) (pg : IdxPage) :
    Option Str × IdxSave :=
  (pg.title, { paths := ord pg.paths, modification := pg.lastModificationTime })

/-- Insertion into the dict built by the comprehension in `index()`: a
repeated key keeps its first position but takes the new value. -/
def dictInsert (d : List (Option Str × IdxSave)) (k : Option Str)
    (v : IdxSave) : List (Option Str × IdxSave) :=
  if d.any (fun p => decide (p.1 = k)) then
    d.map (fun p => if p.1 = k then (k, v) else p)
  else d ++ [(k, v)]

/-- `{title : data for title, data in map(ManualPage.get_save_info,
pages.values())}`. -/
def cacheEntries (ord : List Str → List Str) (pages : List (Str × IdxPage)) :
    List (Option Str × IdxSave) :=
  pages.foldl
    (fun acc p =>
      dictInsert acc (getSaveInfo ord p.2).1 (getSaveInfo ord p.2).2)
    []

/-- JSON string literal for the ASCII names and paths this program handles
(no characters needing escapes occur in them). -/
def jsonStr (s : Str) : Str :=
  '"' :: s ++ ['"']

/-- A JSON object key: Python `json.dumps` stringifies a `None` key as
`"null"`. -/
def jsonKey : Option Str → Str
  | none => jsonStr ['n', 'u', 'l', 'l']
  | some s => jsonStr s

/-- Decimal rendering of the modification number (`null` when absent). -/
def jsonNum : Option Int → Str
  | none => ['n', 'u', 'l', 'l']
  | some i => if i < 0 then '-' :: natStr (-i).toNat else natStr i.toNat

/-- Comma-space separated JSON items, as `json.dumps` default separators. -/
def jsonItems : List Str → Str
  | [] => []
  | [s] => s
  | s :: rest => s ++ ',' :: ' ' :: jsonItems rest

/-- The JSON text of one cached record. -/
def saveJson (v : IdxSave) : Str :=
  '{' :: jsonStr ['p', 'a', 't', 'h', 's'] ++ ':' :: ' ' ::
    ('[' :: jsonItems (v.paths.map jsonStr) ++ [']']) ++ ',' :: ' ' ::
    jsonStr ['m', 'o', 'd', 'i', 'f', 'i', 'c', 'a', 't', 'i', 'o', 'n'] ++
    ':' :: ' ' :: jsonNum v.modification ++ ['}']

/-- `dump_str`: the JSON text `index()` writes (before bz2 compression),
with its trailing newline. -/
def dumpStr (ord : List Str → List Str) (pages : List (Str × IdxPage)) : Str :=
  '{' :: jsonItems
      ((cacheEntries ord pages).map
        (fun p => jsonKey p.1 ++ ':' :: ' ' :: saveJson p.2)) ++
    ['}'] ++ ['\n']

end Index


/-- Walk sighting of `/a/ls.1` (formatter output: the single line `ls`). -/
def walkA : Index.WalkEntry :=
  { fullPath := ['/', 'a', '/', 'l', 's', '.', '1'],
    realPath := ['/', 'a', '/', 'l', 's', '.', '1'],
    mtime := 3, stdout := ['l', 's'] }

/-- Walk sighting of `/b/ls.1`: a distinct real path whose filename
resolves to the same logical page key `(ls, 1)` and whose content produces
identical formatter output. -/
def walkB : Index.WalkEntry :=
  { fullPath := ['/', 'b', '/', 'l', 's', '.', '1'],
    realPath := ['/', 'b', '/', 'l', 's', '.', '1'],
    mtime := 4, stdout := ['l', 's'] }

/-- Walk sighting of a second location `/b/ls.1` of the *same* file
(symlink/hardlink): its real path coincides with `walkA`'s. -/
def walkBsame : Index.WalkEntry :=
  { fullPath := ['/', 'b', '/', 'l', 's', '.', '1'],
    realPath := ['/', 'a', '/', 'l', 's', '.', '1'],
    mtime := 4, stdout := ['l', 's'] }

/-- The single merged page record `index()` builds from `walkA` followed by
`walkBsame`. -/
def samplePagesTwoPaths : List (Str × Index.IdxPage) :=
  [(['/', 'a', '/', 'l', 's', '.', '1'],
    { paths := [['/', 'a', '/', 'l', 's', '.', '1'],
                ['/', 'b', '/', 'l', 's', '.', '1']],
      title := some ['l', 's'], sections := some [],
      lastModificationTime := some 3, needToExtract := false })]


/-- The single page record `index()` builds from `walkA` alone. -/
def sampleSingleRecord : Index.IdxPage :=
  { paths := [['/', 'a', '/', 'l', 's', '.', '1']], title := some ['l', 's'],
    sections := some [], lastModificationTime := some 3,
    needToExtract := false }

/-- Two cached records that agree up to the enumeration order of the
`paths` set: same key, same modification value, same multiset of paths. -/
def cacheRecordSimilar (p q : Option Str × Index.IdxSave) : Prop :=
  p.1 = q.1 ∧ p.2.modification = q.2.modification ∧
    List.Perm p.2.paths q.2.paths


/-- `pat` is a prefix of the second string (character-wise). -/
def startsWithStr : Str → Str → Bool
  | [], _ => true
  | _ :: _, [] => false
  | a :: pa, b :: pb => a = b && startsWithStr pa pb

/-- Python substring containment `pat in s` (contiguous; the empty string
is contained in everything). -/
def containsStr (pat : Str) : Str → Bool
  | [] => pat.isEmpty
  | c :: rest => startsWithStr pat (c :: rest) || containsStr pat rest

namespace Discoverability

/-!
Embedding of `discoverability.py`.  The TF-IDF scoring itself
(`tfidf @ input_vector.T`) happens in floating point inside external
libraries; the per-document score list is therefore taken as the input of
`search_cosine`, and the embedding covers the selection
(`np.argsort(scores)[-1:-count:-1]`), the title lookup, and the rerank
pass `post_process_search`.
-/

/-- Python `list.insert(i, a)`: positions past the end clamp to append. -/
def pyInsert : Nat → α → List α → List α
  | 0, a, l => a :: l
  | _ + 1, a, [] => [a]
  | n + 1, a, x :: l => x :: pyInsert n a l

/-- Insert index `i` into an ascending (by score) index list, before the
first index of score `≥` its own. -/
def insertSortedIdx (scores : List Int) (i : Nat) : List Nat → List Nat
  | [] => [i]
  | j :: js =>
    if scores.getD i 0 ≤ scores.getD j 0 then i :: j :: js
    else j :: insertSortedIdx scores i js

/-- Sort an index list ascending by score (insertion sort). -/
def argsortIdx (scores : List Int) : List Nat → List Nat
  | [] => []
  | i :: is => insertSortedIdx scores i (argsortIdx scores is)

/-- `np.argsort(scores)`: the indices `0, …, n−1` ordered by ascending
score (any tie order is a legal `argsort`; the model fixes one). -/
def argsort (scores : List Int) : List Nat :=
  argsortIdx scores (List.range scores.length)

/-- The slice `a[-1:-count:-1]`: for `count ≥ 1`, the last
`min (count−1) n` elements in reverse; for `count = 0` the stop index is
the plain index `0`, giving all but the first element in reverse. -/
def sliceLastRev (l : List α) (count : Nat) : List α :=
  if count = 0 then (l.drop 1).reverse
  else (l.drop (l.length + 1 - count)).reverse

/-- The document indices `search_cosine` selects, best first. -/
def topIdx (scores : List Int) (count : Nat) : List Nat :=
  sliceLastRev (argsort scores) count

/-- `search_cosine(tfidf, query, count, vectorizer, corpus)` given the
per-document scores: select `top_indices` and map them to corpus titles. -/
def search_cosine (scores : List Int) (count : Nat)
    (corpus : List (Str × Str)) : List Str :=
  (topIdx scores count).map (fun idx => (corpus.getD idx ([], [])).1)

/-- One iteration of the `post_process_search` loop body at `result_idx`,
on the current list and `match_count`.  `results[result_idx]` out of range
or an all-whitespace title (`.split()[0]` of an empty token list) raises
`IndexError`. -/
def ppStep (query : Str) (rs : List Str) (mc idx : Nat) :
    Except PyErr (List Str × Nat) :=
  match rs.get? idx with
  | none => .error .indexError
  | some real =>
    match pySplitWs real with
    | [] => .error .indexError
    | tok :: _ =>
      if containsStr query tok then
        if query = tok then .ok (real :: rs.eraseIdx idx, mc + 1)
        else .ok (pyInsert mc real (rs.eraseIdx idx), mc + 1)
      else .ok (rs, mc)

/-- The `for result_idx in range(len(results))` loop: `n` iterations left,
current list, current `match_count`, current index. -/
def ppLoop (query : Str) : Nat → List Str → Nat → Nat → Except PyErr (List Str)
  | 0, rs, _, _ => .ok rs
  | n + 1, rs, mc, idx =>
    (ppStep query rs mc idx).bind (fun p => ppLoop query n p.1 p.2 (idx + 1))

/-- `post_process_search(query, results)`. -/
def post_process_search (query : Str) (results : List Str) :
    Except PyErr (List Str) :=
  ppLoop query results.length results 0 0

/-- `full_search(tfidf, query, count, vectorizer, corpus)` given the
per-document scores. -/
def full_search (scores : List Int) (query : Str) (count : Nat)
    (corpus : List (Str × Str)) : Except PyErr (List Str) :=
  post_process_search query (search_cosine scores count corpus)

/-- The first whitespace token of a title (`real_result.split()[0]`),
when it exists. -/
def firstTok (t : Str) : Option Str :=
  (pySplitWs t).head?

/-- The title's first token exactly equals the query. -/
def isExactMatch (q t : Str) : Bool :=
  match firstTok t with
  | some tok => decide (q = tok)
  | none => false

/-- The title's first token contains the query as a proper substring. -/
def isSubMatch (q t : Str) : Bool :=
  match firstTok t with
  | some tok => containsStr q tok && !decide (q = tok)
  | none => false

/-- The title's first token does not contain the query at all. -/
def isNonMatch (q t : Str) : Bool :=
  match firstTok t with
  | some tok => !containsStr q tok
  | none => false

end Discoverability

/-! ### Basic lemmas about the string-splitting helpers -/

theorem pySplitOn_ne_nil (sep : Char) (s : Str) : pySplitOn sep s ≠ [] := by
  induction s with
  | nil => simp [pySplitOn]
  | cons c rest ih =>
    simp only [pySplitOn]
    split
    · simp
    · cases h : pySplitOn sep rest with
      | nil => simp
      | cons t ts => simp

theorem pySplitOn_append (sep : Char) (a b : Str) :
    pySplitOn sep (a ++ sep :: b) = pySplitOn sep a ++ pySplitOn sep b := by
  induction a with
  | nil => simp [pySplitOn]
  | cons c rest ih =>
    simp only [List.cons_append, pySplitOn, List.append_eq]
    split
    · simp [ih]
    · rw [ih]
      cases h : pySplitOn sep rest with
      | nil => exact absurd h (pySplitOn_ne_nil sep rest)
      | cons t ts => simp

theorem pySplitOn_no_sep (sep : Char) (s : Str) (h : sep ∉ s) :
    pySplitOn sep s = [s] := by
  induction s with
  | nil => simp [pySplitOn]
  | cons c rest ih =>
    simp only [List.mem_cons, not_or] at h
    simp only [pySplitOn]
    rw [if_neg (fun hc => h.1 hc.symm), ih h.2]

theorem pyJoin_cons_head (sep c : Char) (t : Str) (ts : List Str) :
    pyJoin sep ((c :: t) :: ts) = c :: pyJoin sep (t :: ts) := by
  cases ts with
  | nil => simp [pyJoin]
  | cons u us => simp [pyJoin]

theorem pyJoin_pySplitOn (sep : Char) (s : Str) :
    pyJoin sep (pySplitOn sep s) = s := by
  induction s with
  | nil => simp [pySplitOn, pyJoin]
  | cons c rest ih =>
    simp only [pySplitOn]
    split
    · rename_i hc
      subst hc
      cases h : pySplitOn c rest with
      | nil => exact absurd h (pySplitOn_ne_nil c rest)
      | cons t ts =>
        rw [h] at ih
        simp [pyJoin, ih]
    · cases h : pySplitOn sep rest with
      | nil => exact absurd h (pySplitOn_ne_nil sep rest)
      | cons t ts =>
        rw [h] at ih
        rw [pyJoin_cons_head, ih]

theorem isDigit_ne_dot {c : Char} (h : c.isDigit) : c ≠ '.' := by
  intro hc
  subst hc
  simp [Char.isDigit] at h


theorem pyIsNumeric_of_digits {s : Str} (h0 : s ≠ []) (h : ∀ c ∈ s, c.isDigit) :
    pyIsNumeric s = true := by
  simp only [pyIsNumeric, Bool.and_eq_true, Bool.not_eq_true', List.isEmpty_eq_false,
    List.all_eq_true, ne_eq]
  exact ⟨h0, h⟩

theorem dot_not_mem_of_digits {s : Str} (h : ∀ c ∈ s, c.isDigit) : '.' ∉ s :=
  fun hm => isDigit_ne_dot (h _ hm) rfl

theorem negIdx_two_concat (l : List α) (x y : α) :
    negIdx (l ++ [x, y]) 2 = some x := by
  simp only [negIdx, List.length_append, List.length_cons, List.length_nil]
  rw [if_pos (by omega)]
  rw [show l.length + (0 + 1 + 1) - 2 = l.length by omega]
  rw [List.get?_eq_getElem?, List.getElem?_append_right (Nat.le_refl _)]
  simp



/-! ### Claim C3: the name/section resolver -/

theorem resolver_ok_uncompressed (name sec : Str) (h0 : sec ≠ [])
    (hd : ∀ c ∈ sec, c.isDigit) :
    PageInterface.getNameAndSection (name ++ '.' :: sec) =
      .ok (name, digitsToNat sec) := by
  have hsec : pySplitOn '.' sec = [sec] :=
    pySplitOn_no_sep _ _ (dot_not_mem_of_digits hd)
  simp only [PageInterface.getNameAndSection, pySplitOn_append, hsec]
  rw [List.getLastD_concat, List.dropLast_concat]
  rw [if_pos (pyIsNumeric_of_digits h0 hd), pyJoin_pySplitOn]

theorem resolver_ok_suffixed (name sec sfx : Str) (h0 : sec ≠ [])
    (hd : ∀ c ∈ sec, c.isDigit)
    (hnum : pyIsNumeric sfx = false) (hdot : '.' ∉ sfx) :
    PageInterface.getNameAndSection (name ++ '.' :: sec ++ '.' :: sfx) =
      .ok (name, digitsToNat sec) := by
  have hsec : pySplitOn '.' sec = [sec] :=
    pySplitOn_no_sep _ _ (dot_not_mem_of_digits hd)
  have hsfx : pySplitOn '.' sfx = [sfx] := pySplitOn_no_sep _ _ hdot
  have hassoc : name ++ '.' :: sec ++ '.' :: sfx
      = name ++ '.' :: (sec ++ '.' :: sfx) := by simp
  simp only [hassoc, PageInterface.getNameAndSection, pySplitOn_append, hsec, hsfx]
  have hcat : pySplitOn '.' name ++ ([sec] ++ [sfx])
      = (pySplitOn '.' name ++ [sec]) ++ [sfx] := by simp
  rw [hcat, List.getLastD_concat, if_neg (by simp [hnum])]
  have hni : negIdx ((pySplitOn '.' name ++ [sec]) ++ [sfx]) 2 = some sec := by
    rw [List.append_assoc]
    exact negIdx_two_concat _ _ _
  have hlen : 1 ≤ (pySplitOn '.' name).length :=
    List.length_pos.mpr (pySplitOn_ne_nil '.' name)
  have h3 : ((pySplitOn '.' name ++ [sec]) ++ [sfx]).length ≥ 3 := by
    simp only [List.length_append, List.length_cons, List.length_nil]
    omega
  simp only [PageInterface.nameValid, hni, pyIsNumeric_of_digits h0 hd,
    decide_eq_true h3, Bool.and_self, Except.bind]
  rw [List.dropLast_concat, List.dropLast_concat, pyJoin_pySplitOn]
  rfl

theorem resolver_dotless_raises (filename : Str) (hdot : '.' ∉ filename)
    (hnum : pyIsNumeric filename = false) :
    PageInterface.getNameAndSection filename = .error .indexError := by
  simp only [PageInterface.getNameAndSection, pySplitOn_no_sep _ _ hdot]
  rw [show ([filename] : List Str).getLastD [] = filename from rfl,
    if_neg (by simp [hnum])]
  rfl

theorem resolver_two_tokens_raises (a b : Str) (ha : '.' ∉ a) (hb : '.' ∉ b)
    (hnum : pyIsNumeric b = false) :
    PageInterface.getNameAndSection (a ++ '.' :: b) = .error .valueError := by
  simp only [PageInterface.getNameAndSection, pySplitOn_append,
    pySplitOn_no_sep _ _ ha, pySplitOn_no_sep _ _ hb]
  rw [show ([a] ++ [b] : List Str).getLastD [] = b from rfl, if_neg (by simp [hnum])]
  have hnv : PageInterface.nameValid ([a] ++ [b]) = .ok false := by
    simp [PageInterface.nameValid, negIdx]
  rw [hnv]
  rfl

theorem resolver_nonnumeric_tail_raises (name b c : Str)
    (hb : '.' ∉ b) (hc : '.' ∉ c)
    (hnb : pyIsNumeric b = false) (hnc : pyIsNumeric c = false) :
    PageInterface.getNameAndSection (name ++ '.' :: b ++ '.' :: c) =
      .error .valueError := by
  have hbs : pySplitOn '.' b = [b] := pySplitOn_no_sep _ _ hb
  have hcs : pySplitOn '.' c = [c] := pySplitOn_no_sep _ _ hc
  have hassoc : name ++ '.' :: b ++ '.' :: c
      = name ++ '.' :: (b ++ '.' :: c) := by simp
  simp only [hassoc, PageInterface.getNameAndSection, pySplitOn_append, hbs, hcs]
  have hcat : pySplitOn '.' name ++ ([b] ++ [c])
      = (pySplitOn '.' name ++ [b]) ++ [c] := by simp
  rw [hcat, List.getLastD_concat, if_neg (by simp [hnc])]
  have hni : negIdx ((pySplitOn '.' name ++ [b]) ++ [c]) 2 = some b := by
    rw [List.append_assoc]
    exact negIdx_two_concat _ _ _
  simp only [PageInterface.nameValid, hni, hnb, Bool.false_and]
  rfl

/-- Claim C3, counterexample.  The claim says every filename that is not of
manual-page shape fails with the skippable `ValueError`; the filename
`README` (its own example) instead raises `IndexError`, because
`_name_valid` indexes `split_name[-2]` on a one-element token list.
Moreover `foo.1.txt`, whose trailing suffix is not a recognized compression
suffix, is accepted rather than rejected. -/
theorem c3_counterexample :
    PageInterface.getNameAndSection ['R', 'E', 'A', 'D', 'M', 'E'] =
        .error .indexError ∧
      PyErr.indexError ≠ PyErr.valueError ∧
      PageInterface.getNameAndSection
          ['f', 'o', 'o', '.', '1', '.', 't', 'x', 't'] =
        .ok (['f', 'o', 'o'], 1) := by
  refine ⟨rfl, by decide, rfl⟩

/-- Claim C3 (corrected).  Behaviour of `ManualPage._get_name_and_section`
by filename shape: (1) `NAME.SECTION` with numeric `SECTION` resolves to
`(NAME, SECTION)`; (2) `NAME.SECTION.SFX` with numeric `SECTION` and any
dot-free non-numeric suffix `SFX` — not only `gz`/`bz2`; the source performs
only a deliberately "weak check" that the token before the suffix is numeric
and at least three dot-separated tokens exist — also resolves to
`(NAME, SECTION)`; (3) a dotless non-numeric filename such as `README`
raises `IndexError` (from indexing `split_name[-2]` on a one-element list),
not the skippable `ValueError`; (4) a filename with exactly two dot-separated
tokens whose last token is non-numeric, such as `file.txt`, raises the
skippable `ValueError`; (5) every filename with three or more dot-separated
tokens whose last and second-to-last tokens are both non-numeric, such as
`notes.backup.txt`, also raises the skippable `ValueError`. -/
theorem c3_resolver_shape_behaviour :
    (∀ name sec : Str, sec ≠ [] → (∀ c ∈ sec, c.isDigit) →
      PageInterface.getNameAndSection (name ++ '.' :: sec) =
        .ok (name, digitsToNat sec)) ∧
    (∀ name sec sfx : Str, sec ≠ [] → (∀ c ∈ sec, c.isDigit) →
      pyIsNumeric sfx = false → '.' ∉ sfx →
      PageInterface.getNameAndSection (name ++ '.' :: sec ++ '.' :: sfx) =
        .ok (name, digitsToNat sec)) ∧
    (∀ filename : Str, '.' ∉ filename → pyIsNumeric filename = false →
      PageInterface.getNameAndSection filename = .error .indexError) ∧
    (∀ a b : Str, '.' ∉ a → '.' ∉ b → pyIsNumeric b = false →
      PageInterface.getNameAndSection (a ++ '.' :: b) = .error .valueError) ∧
    (∀ name b c : Str, '.' ∉ b → '.' ∉ c →
      pyIsNumeric b = false → pyIsNumeric c = false →
      PageInterface.getNameAndSection (name ++ '.' :: b ++ '.' :: c) =
        .error .valueError) :=
  ⟨fun name sec h0 hd => resolver_ok_uncompressed name sec h0 hd,
   fun name sec sfx h0 hd hnum hdot =>
     resolver_ok_suffixed name sec sfx h0 hd hnum hdot,
   fun filename hdot hnum => resolver_dotless_raises filename hdot hnum,
   fun a b ha hb hnum => resolver_two_tokens_raises a b ha hb hnum,
   fun name b c hb hc hnb hnc =>
     resolver_nonnumeric_tail_raises name b c hb hc hnb hnc⟩

/-- Claim C3, witness: the corrected theorem applied to the concrete
filenames `grep.1`, `ls.1.gz`, `README`, `file.txt` and `notes.backup.txt`. -/
theorem c3_resolver_shape_behaviour_witness :
    PageInterface.getNameAndSection ['g', 'r', 'e', 'p', '.', '1'] =
        .ok (['g', 'r', 'e', 'p'], 1) ∧
      PageInterface.getNameAndSection ['l', 's', '.', '1', '.', 'g', 'z'] =
        .ok (['l', 's'], 1) ∧
      PageInterface.getNameAndSection ['R', 'E', 'A', 'D', 'M', 'E'] =
        .error .indexError ∧
      PageInterface.getNameAndSection ['f', 'i', 'l', 'e', '.', 't', 'x', 't'] =
        .error .valueError ∧
      PageInterface.getNameAndSection ['n', 'o', 't', 'e', 's', '.', 'b', 'a',
          'c', 'k', 'u', 'p', '.', 't', 'x', 't'] =
        .error .valueError :=
  ⟨c3_resolver_shape_behaviour.1 ['g', 'r', 'e', 'p'] ['1']
      (by decide) (by decide),
   c3_resolver_shape_behaviour.2.1 ['l', 's'] ['1'] ['g', 'z']
      (by decide) (by decide) (by decide) (by decide),
   c3_resolver_shape_behaviour.2.2.1 ['R', 'E', 'A', 'D', 'M', 'E']
      (by decide) (by decide),
   c3_resolver_shape_behaviour.2.2.2.1 ['f', 'i', 'l', 'e'] ['t', 'x', 't']
      (by decide) (by decide) (by decide),
   c3_resolver_shape_behaviour.2.2.2.2 ['n', 'o', 't', 'e', 's']
      ['b', 'a', 'c', 'k', 'u', 'p'] ['t', 'x', 't']
      (by decide) (by decide) (by decide) (by decide)⟩

/-! ### Claim C8: overstrike cleanup (`_degrotty`) -/

theorem undoBold_no_bs : ∀ l : Str, '\x08' ∉ l → undoBold l = l
  | [], _ => rfl
  | [a], _ => rfl
  | [a, b], _ => rfl
  | a :: b :: c :: rest, h => by
    have hb : b ≠ '\x08' := fun hb => h (by simp [hb])
    rw [undoBold, if_neg (by simp [hb])]
    rw [undoBold_no_bs (b :: c :: rest) (fun hm => h (List.mem_cons_of_mem a hm))]

theorem undoItalics_no_bs : ∀ l : Str, '\x08' ∉ l → undoItalics l = l
  | [], _ => rfl
  | [a], _ => rfl
  | [a, b], _ => rfl
  | a :: b :: c :: rest, h => by
    have hb : b ≠ '\x08' := fun hb => h (by simp [hb])
    rw [undoItalics, if_neg (by simp [hb])]
    rw [undoItalics_no_bs (b :: c :: rest) (fun hm => h (List.mem_cons_of_mem a hm))]

theorem degrotty_fixed_no_bs (ls : List Str) (h : ∀ l ∈ ls, '\x08' ∉ l) :
    degrotty ls = ls := by
  unfold degrotty
  induction ls with
  | nil => rfl
  | cons l ls ih =>
    simp only [List.map_cons]
    rw [undoBold_no_bs l (h l (List.mem_cons_self l ls)),
      undoItalics_no_bs l (h l (List.mem_cons_self l ls)),
      ih (fun m hm => h m (List.mem_cons_of_mem l hm))]

/-- Claim C8, counterexample.  `_degrotty` is not idempotent: on the line
`a BACKSPACE a BACKSPACE a` one pass consumes the first `a BACKSPACE a`
overstrike and leaves `a BACKSPACE a`, which a second pass then collapses
to `a`; applying it twice differs from applying it once. -/
theorem c8_counterexample :
    degrotty (degrotty [['a', '\x08', 'a', '\x08', 'a']]) ≠
      degrotty [['a', '\x08', 'a', '\x08', 'a']] := by decide

/-- Claim C8 (corrected).  `_degrotty` maps `b BACKSPACE b` to `b` and
`_ BACKSPACE o` to `o` as claimed, and applying it twice yields the same
result as applying it once whenever no backspace character survives the
first pass; in general (overlapping overstrike runs whose residue still
contains a backspace, e.g. `a BACKSPACE a BACKSPACE a`) it is not
idempotent. -/
theorem c8_degrotty_cleanup :
    (∀ ls : List Str, (∀ l ∈ degrotty ls, '\x08' ∉ l) →
      degrotty (degrotty ls) = degrotty ls) ∧
    degrotty [['b', '\x08', 'b']] = [['b']] ∧
    degrotty [['_', '\x08', 'o']] = [['o']] :=
  ⟨fun ls h => degrotty_fixed_no_bs (degrotty ls) h, by decide, by decide⟩

/-- Claim C8, witness: the corrected idempotence applied to the concrete
input line `b BACKSPACE b`, whose one-pass output `b` is backspace-free. -/
theorem c8_degrotty_cleanup_witness :
    degrotty (degrotty [['b', '\x08', 'b']]) = degrotty [['b', '\x08', 'b']] :=
  c8_degrotty_cleanup.1 [['b', '\x08', 'b']] (by decide)

/-! ### Claims C1 and C4: `record_path` and `_parse` -/

theorem parse_preserves_mtime {desired : List Str} {st : PageInterface.PageState}
    {out : Str} {st' : PageInterface.PageState}
    (h : PageInterface.parse desired st out = .ok st') :
    st'.lastModificationTime = st.lastModificationTime := by
  unfold PageInterface.parse at h
  simp only at h
  split at h
  · cases h
    rfl
  · split at h
    · cases h
      rfl
    · split at h
      · cases h
      · cases h
        rfl

theorem recordPath_preserves_mtime {desired : List Str}
    {st : PageInterface.PageState} {path : Str} {mtime : Int} {out : Str}
    {st' : PageInterface.PageState}
    (h : PageInterface.recordPath desired st path mtime out = .ok st') :
    st'.lastModificationTime = st.lastModificationTime := by
  unfold PageInterface.recordPath at h
  simp only at h
  have h2 := parse_preserves_mtime h
  simpa using h2

theorem initPage_mtime_zero {desired : List Str} {path : Str} {mtime : Int}
    {out : Str} {st' : PageInterface.PageState}
    (h : PageInterface.initPage desired path mtime out = .ok st') :
    st'.lastModificationTime = 0 := by
  unfold PageInterface.initPage at h
  cases hr : PageInterface.getNameAndSectionPath path with
  | error e => rw [hr] at h; cases h
  | ok ts =>
    rw [hr] at h
    have h3 : PageInterface.recordPath desired
        { paths := [], title := ts.1, sectionNumber := ts.2, sections := [],
          lastModificationTime := 0, hashes := [] } path mtime out = .ok st' := h
    have h2 := recordPath_preserves_mtime h3
    simpa using h2

/-- Claim C1 (code bug).  The source computes
`this_hash = hasher.update(groff_result.stdout)`, but `sha1().update`
returns `None`, so the stored and looked-up "hash" is `None` for every
content.  Consequently the first `record_path` stores `None` in `_hashes`
and every later call skips section segmentation regardless of content:
below, a second path with *different* formatter output (`baz` body instead
of `foo`) leaves `sections` unchanged, while indexing that second file
alone would have produced the `baz` text.  The claim (and the spec's stated
intent) that only identical-content occurrences are skipped does not hold. -/
theorem c1_content_hash_is_constant_none :
    PageInterface.initPage sampleDesired samplePath1 5 sampleOut1 =
        .ok samplePage1 ∧
      PageInterface.recordPath sampleDesired samplePage1 samplePath2 7
          sampleOut2 =
        .ok { samplePage1 with paths := [samplePath1, samplePath2] } ∧
      sampleOut1 ≠ sampleOut2 ∧
      (PageInterface.initPage sampleDesired samplePath2 7 sampleOut2).map
          (fun st => st.sections) =
        .ok [(['N', 'A', 'M', 'E'], ['b', 'a', 'z', ' '])] :=
  ⟨rfl, rfl, by decide, rfl⟩

/-- Claim C4 (code bug).  `record_path` computes
`max(os.path.getmtime(path), self._last_modification_time)` but assigns the
result to a *local* variable `self_last_modification_time` (a missing dot),
so the page's `_last_modification_time` field never changes: after any
successful `record_path` it equals its previous value, and after
construction it is still the sentinel `0`, not the max of the observed
modification times. -/
theorem c4_last_modification_time_never_updated :
    (∀ (desired : List Str) (st : PageInterface.PageState) (path : Str)
        (mtime : Int) (out : Str) (st' : PageInterface.PageState),
      PageInterface.recordPath desired st path mtime out = .ok st' →
      st'.lastModificationTime = st.lastModificationTime) ∧
    (∀ (desired : List Str) (path : Str) (mtime : Int) (out : Str)
        (st' : PageInterface.PageState),
      PageInterface.initPage desired path mtime out = .ok st' →
      st'.lastModificationTime = 0) :=
  ⟨fun _ _ _ _ _ _ h => recordPath_preserves_mtime h,
   fun _ _ _ _ _ h => initPage_mtime_zero h⟩

/-- Claim C4, witness: constructing a page from a file with modification
time 5 leaves the field at the sentinel `0`, though the claimed max-merge
would give `5`. -/
theorem c4_last_modification_time_never_updated_witness :
    samplePage1.lastModificationTime = 0 ∧ max (5 : Int) 0 ≠ 0 :=
  ⟨c4_last_modification_time_never_updated.2 sampleDesired samplePath1 5
      sampleOut1 samplePage1 rfl,
   by decide⟩

/-! ### Claim C2: the `index()` walk and its merge keying -/

theorem idx_parse_ok_cases {desired : List Str} {st : Index.IdxPage} {out : Str}
    {st' : Index.IdxPage} (h : Index.parse desired st out = .ok st') :
    (pySplitlines out = [] ∧ st' = st) ∨ st'.needToExtract = false := by
  unfold Index.parse at h
  simp only at h
  split at h
  · left
    cases h
    rename_i he
    exact ⟨List.isEmpty_iff.mp he, rfl⟩
  · split at h
    · cases h
    · rename_i titleLine hfind
      cases hp : Index.parseLines2 desired ((pySplitlines out).drop 1) none [] with
      | error e =>
        rw [hp] at h
        cases h
      | ok secs =>
        rw [hp] at h
        simp only [Except.map] at h
        cases h
        right
        rfl

theorem idx_recordPath_no_extract {desired : List Str} {st : Index.IdxPage}
    {path : Str} {mtime : Int} {out : Str} (h : st.needToExtract = false) :
    Index.recordPath desired st path mtime out =
      .ok { st with paths := Index.setAdd st.paths path } := by
  unfold Index.recordPath
  simp [h]

theorem idx_recordPath_extract {desired : List Str} {st : Index.IdxPage}
    {path : Str} {mtime : Int} {out : Str} (h : st.needToExtract = true) :
    Index.recordPath desired st path mtime out =
      Index.parse desired
        { st with paths := Index.setAdd st.paths path,
                  lastModificationTime := some mtime } out := by
  unfold Index.recordPath Index.extractInfo
  simp [h]

theorem idx_parse_empty {desired : List Str} {st : Index.IdxPage} {out : Str}
    (h : pySplitlines out = []) :
    Index.parse desired st out = .ok st := by
  unfold Index.parse
  simp [h]

theorem walk_nil (desired : List Str) (pages : List (Str × Index.IdxPage)) :
    Index.walk desired [] pages = .ok pages := rfl

theorem walk_cons_new (desired : List Str) (e : Index.WalkEntry)
    (rest : List Index.WalkEntry) (pages : List (Str × Index.IdxPage))
    (h : pages.any (fun p => decide (p.1 = e.realPath)) = false) :
    Index.walk desired (e :: rest) pages =
      (Index.initPage desired e.realPath e.mtime e.stdout).bind
        (fun pg => Index.walk desired rest (pages ++ [(e.realPath, pg)])) := by
  have hdef : Index.walk desired (e :: rest) pages =
      if (pages.any fun p => decide (p.1 = e.realPath)) = true then
        (Index.walkUpdate desired e pages).bind
          (fun pages' => Index.walk desired rest pages')
      else
        (Index.initPage desired e.realPath e.mtime e.stdout).bind
          (fun pg => Index.walk desired rest (pages ++ [(e.realPath, pg)])) := rfl
  rw [hdef, h]
  rfl

theorem walk_cons_seen (desired : List Str) (e : Index.WalkEntry)
    (rest : List Index.WalkEntry) (pages : List (Str × Index.IdxPage))
    (h : pages.any (fun p => decide (p.1 = e.realPath)) = true) :
    Index.walk desired (e :: rest) pages =
      (Index.walkUpdate desired e pages).bind
        (fun pages' => Index.walk desired rest pages') := by
  have hdef : Index.walk desired (e :: rest) pages =
      if (pages.any fun p => decide (p.1 = e.realPath)) = true then
        (Index.walkUpdate desired e pages).bind
          (fun pages' => Index.walk desired rest pages')
      else
        (Index.initPage desired e.realPath e.mtime e.stdout).bind
          (fun pg => Index.walk desired rest (pages ++ [(e.realPath, pg)])) := rfl
  rw [hdef, h]
  rfl

/-- Claim C2, counterexample.  The walk dictionary in `index()` is keyed by
`os.path.realpath`, not by the logical page key: `/a/ls.1` and `/b/ls.1`
resolve to the same `(ls, 1)` key yet produce *two* `ManualPage` records,
each holding only its own path, contradicting the claimed single merged
record. -/
theorem c2_counterexample :
    PageInterface.getNameAndSectionPath walkA.fullPath =
        PageInterface.getNameAndSectionPath walkB.fullPath ∧
      walkA.realPath ≠ walkB.realPath ∧
      (Index.indexPages [] [walkA, walkB]).map
          (fun pages => pages.map (fun p => (p.1, p.2.paths))) =
        .ok [(walkA.realPath, [walkA.realPath]),
             (walkB.realPath, [walkB.realPath])] :=
  ⟨rfl, by decide, rfl⟩

/-- Claim C2 (corrected).  The `index()` mapping is keyed by canonical real
path: when a *second* sighting carries the same real path (hardlink or
symlink), the existing record merges it — `record_path` appends the new
full path to the path set, and the resulting record's `sections` and
`title` equal those of a single-sighting walk, because extraction is
gated by `_need_to_extract` (cleared by the first successful parse, and
when it is still set the identical — hence still empty — formatter output
changes nothing). -/
theorem c2_same_realpath_merges (desired : List Str) (e1 e2 : Index.WalkEntry)
    (r : Str) (st1 : Index.IdxPage)
    (h2 : e2.realPath = r)
    (hw : Index.indexPages desired [e1] = .ok [(r, st1)])
    (hsame : e2.stdout = e1.stdout) :
    ∃ st2, Index.indexPages desired [e1, e2] = .ok [(r, st2)] ∧
      st2.sections = st1.sections ∧ st2.title = st1.title ∧
      st2.paths = Index.setAdd st1.paths e2.fullPath := by
  subst h2
  unfold Index.indexPages at hw ⊢
  rw [walk_cons_new desired e1 [] [] rfl] at hw
  cases hi : Index.initPage desired e1.realPath e1.mtime e1.stdout with
  | error e =>
    rw [hi] at hw
    cases hw
  | ok pg =>
    rw [hi] at hw
    simp only [Except.bind, walk_nil, List.nil_append, Except.ok.injEq,
      List.cons.injEq, Prod.mk.injEq, and_true] at hw
    obtain ⟨hreq, hpg⟩ := hw
    subst hpg
    rw [walk_cons_new desired e1 [e2] [] rfl, hi]
    simp only [Except.bind, List.nil_append]
    rw [walk_cons_seen desired e2 [] [(e1.realPath, pg)] (by simp [hreq])]
    unfold Index.walkUpdate
    rw [if_pos hreq, hreq]
    cases hne : pg.needToExtract with
    | false =>
      rw [idx_recordPath_no_extract hne]
      exact ⟨{ pg with paths := Index.setAdd pg.paths e2.fullPath },
        rfl, rfl, rfl, rfl⟩
    | true =>
      have hp : Index.parse desired
          { paths := [e1.realPath], title := none, sections := none,
            lastModificationTime := some e1.mtime, needToExtract := true }
          e1.stdout = .ok pg := hi
      rcases idx_parse_ok_cases hp with ⟨hempt, hpg0⟩ | hfalse
      · rw [idx_recordPath_extract hne, hsame, idx_parse_empty hempt]
        exact ⟨{ pg with paths := Index.setAdd pg.paths e2.fullPath,
                         lastModificationTime := some e2.mtime },
          rfl, rfl, rfl, rfl⟩
      · rw [hne] at hfalse
        cases hfalse

/-- Claim C2, witness: the corrected merge applied to the concrete
sightings `walkA` and `walkBsame` (two locations of the same real file). -/
theorem c2_same_realpath_merges_witness :
    ∃ st2, Index.indexPages [] [walkA, walkBsame] =
        .ok [(walkA.realPath, st2)] ∧
      st2.sections = sampleSingleRecord.sections ∧
      st2.title = sampleSingleRecord.title ∧
      st2.paths = Index.setAdd sampleSingleRecord.paths walkBsame.fullPath :=
  c2_same_realpath_merges [] walkA walkBsame walkA.realPath
    sampleSingleRecord rfl rfl rfl

/-! ### Claim C7: empty pages, `get_save_info`, and the written cache -/

theorem getSaveInfo_error_iff (st : PageInterface.PageState) :
    PageInterface.getSaveInfo st = .error .noDataRead ↔ st.sections = [] := by
  cases h : st.sections with
  | nil => simp [PageInterface.getSaveInfo, PageInterface.cleanData, h]
  | cons a as => simp [PageInterface.getSaveInfo, PageInterface.cleanData, h]

theorem dictInsert_mem (d : List (Option Str × Index.IdxSave)) (k : Option Str)
    (v : Index.IdxSave) (t : Option Str)
    (h : d.any (fun p => decide (p.1 = t)) = true) :
    (Index.dictInsert d k v).any (fun p => decide (p.1 = t)) = true := by
  unfold Index.dictInsert
  split
  · simp only [List.any_map, List.any_eq_true] at h ⊢
    obtain ⟨p, hp, hpt⟩ := h
    refine ⟨p, hp, ?_⟩
    simp only [Function.comp]
    split
    · rename_i hpk
      simp only [decide_eq_true_eq] at hpt
      simp [← hpt, hpk]
    · exact hpt
  · simp only [List.any_append, Bool.or_eq_true]
    exact Or.inl h

theorem dictInsert_mem_self (d : List (Option Str × Index.IdxSave))
    (k : Option Str) (v : Index.IdxSave) :
    (Index.dictInsert d k v).any (fun p => decide (p.1 = k)) = true := by
  unfold Index.dictInsert
  split
  · rename_i h
    simp only [List.any_eq_true] at h
    obtain ⟨p, hp, hpk⟩ := h
    simp only [List.any_map, List.any_eq_true]
    refine ⟨p, hp, ?_⟩
    simp only [Function.comp]
    have hpk' : p.1 = k := by simpa using hpk
    simp [hpk']
  · simp

theorem foldl_dictInsert_preserves (ord : List Str → List Str) (t : Option Str) :
    ∀ (pages : List (Str × Index.IdxPage))
      (acc : List (Option Str × Index.IdxSave)),
      acc.any (fun q => decide (q.1 = t)) = true →
      ((pages.foldl (fun acc p =>
          Index.dictInsert acc (Index.getSaveInfo ord p.2).1
            (Index.getSaveInfo ord p.2).2) acc).any
        (fun q => decide (q.1 = t))) = true := by
  intro pages
  induction pages with
  | nil => exact fun acc h => h
  | cons p rest ih =>
    intro acc h
    simp only [List.foldl_cons]
    exact ih _ (dictInsert_mem _ _ _ _ h)

theorem foldl_dictInsert_has (ord : List Str → List Str)
    (p : Str × Index.IdxPage) :
    ∀ (pages : List (Str × Index.IdxPage))
      (acc : List (Option Str × Index.IdxSave)), p ∈ pages →
      ((pages.foldl (fun acc q =>
          Index.dictInsert acc (Index.getSaveInfo ord q.2).1
            (Index.getSaveInfo ord q.2).2) acc).any
        (fun q => decide (q.1 = p.2.title))) = true := by
  intro pages
  induction pages with
  | nil => intro acc hp; cases hp
  | cons q rest ih =>
    intro acc hp
    simp only [List.foldl_cons]
    rcases List.mem_cons.mp hp with heq | hmem
    · subst heq
      exact foldl_dictInsert_preserves ord p.2.title rest _
        (dictInsert_mem_self _ _ _)
    · exact ih _ hmem

theorem cacheEntries_has_title (ord : List Str → List Str)
    (pages : List (Str × Index.IdxPage)) (p : Str × Index.IdxPage)
    (hp : p ∈ pages) :
    (Index.cacheEntries ord pages).any
      (fun q => decide (q.1 = p.2.title)) = true :=
  foldl_dictInsert_has ord p pages [] hp

/-- Claim C7, counterexample.  A page with zero extracted sections *does*
enter the persisted cache: indexing `walkA` (whose formatter output has no
recognized section, `sections = some []`) still writes one cache entry,
because `index()` uses `index.ManualPage.get_save_info`, which saves only
paths and modification time and never raises. -/
theorem c7_counterexample :
    (Index.indexPages [] [walkA]).map
        (fun pages => pages.map (fun p => p.2.sections)) = .ok [some []] ∧
      (Index.indexPages [] [walkA]).map (Index.cacheEntries (fun l => l)) =
        .ok [(some ['l', 's'],
          { paths := [['/', 'a', '/', 'l', 's', '.', '1']],
            modification := some 3 })] :=
  ⟨rfl, rfl⟩

/-- Claim C7 (corrected).  `page_interface.ManualPage.get_save_info` fails
with `NoDataReadError` exactly when the page's `sections` dict is empty;
but the cache written by the `index()` build contains an entry for *every*
walked page record regardless of its sections — the `index.py` save path
stores only paths and modification time, keyed by the parsed title. -/
theorem c7_empty_page_handling :
    (∀ st : PageInterface.PageState,
      PageInterface.getSaveInfo st = .error .noDataRead ↔ st.sections = []) ∧
    (∀ (ord : List Str → List Str) (pages : List (Str × Index.IdxPage))
        (p : Str × Index.IdxPage), p ∈ pages →
      (Index.cacheEntries ord pages).any
        (fun q => decide (q.1 = p.2.title)) = true) :=
  ⟨getSaveInfo_error_iff, cacheEntries_has_title⟩

/-- Claim C7, witness: the sectionless record built from `walkA` and
`walkBsame` has a cache entry under its title key. -/
theorem c7_empty_page_handling_witness :
    (Index.cacheEntries (fun l => l) samplePagesTwoPaths).any
      (fun q => decide (q.1 = (some ['l', 's'] : Option Str))) = true :=
  c7_empty_page_handling.2 (fun l => l) samplePagesTwoPaths
    (['/', 'a', '/', 'l', 's', '.', '1'],
      { paths := [['/', 'a', '/', 'l', 's', '.', '1'],
                  ['/', 'b', '/', 'l', 's', '.', '1']],
        title := some ['l', 's'], sections := some [],
        lastModificationTime := some 3, needToExtract := false })
    (by simp [samplePagesTwoPaths])

/-! ### Claim C9: determinism of the written cache -/

theorem forall2_any_key {d1 d2 : List (Option Str × Index.IdxSave)}
    (h : List.Forall₂ cacheRecordSimilar d1 d2) (k : Option Str) :
    d1.any (fun p => decide (p.1 = k)) = d2.any (fun p => decide (p.1 = k)) := by
  induction h with
  | nil => rfl
  | cons hr hrest ih =>
    simp only [List.any_cons, ih, hr.1]

theorem forall2_map_update {d1 d2 : List (Option Str × Index.IdxSave)}
    (h : List.Forall₂ cacheRecordSimilar d1 d2) (k : Option Str)
    {v1 v2 : Index.IdxSave} (hmod : v1.modification = v2.modification)
    (hperm : List.Perm v1.paths v2.paths) :
    List.Forall₂ cacheRecordSimilar
      (d1.map (fun p => if p.1 = k then (k, v1) else p))
      (d2.map (fun p => if p.1 = k then (k, v2) else p)) := by
  induction h with
  | nil => exact List.Forall₂.nil
  | cons hr hrest ih =>
    rename_i a b l1 l2
    simp only [List.map_cons]
    refine List.Forall₂.cons ?_ ih
    by_cases hak : a.1 = k
    · rw [if_pos hak, if_pos (hr.1.symm.trans hak)]
      exact ⟨rfl, hmod, hperm⟩
    · rw [if_neg hak, if_neg (fun hb => hak (hr.1.trans hb))]
      exact hr

theorem dictInsert_rel {d1 d2 : List (Option Str × Index.IdxSave)}
    (h : List.Forall₂ cacheRecordSimilar d1 d2) (k : Option Str)
    {v1 v2 : Index.IdxSave} (hmod : v1.modification = v2.modification)
    (hperm : List.Perm v1.paths v2.paths) :
    List.Forall₂ cacheRecordSimilar (Index.dictInsert d1 k v1)
      (Index.dictInsert d2 k v2) := by
  unfold Index.dictInsert
  rw [forall2_any_key h k]
  split
  · exact forall2_map_update h k hmod hperm
  · exact List.rel_append h
      (List.Forall₂.cons ⟨rfl, hmod, hperm⟩ List.Forall₂.nil)

theorem cacheEntries_rel (ord1 ord2 : List Str → List Str)
    (h1 : ∀ l, List.Perm (ord1 l) l) (h2 : ∀ l, List.Perm (ord2 l) l)
    (pages : List (Str × Index.IdxPage)) :
    List.Forall₂ cacheRecordSimilar (Index.cacheEntries ord1 pages)
      (Index.cacheEntries ord2 pages) := by
  unfold Index.cacheEntries
  suffices hgen : ∀ (acc1 acc2 : List (Option Str × Index.IdxSave)),
      List.Forall₂ cacheRecordSimilar acc1 acc2 →
      List.Forall₂ cacheRecordSimilar
        (pages.foldl (fun acc p =>
          Index.dictInsert acc (Index.getSaveInfo ord1 p.2).1
            (Index.getSaveInfo ord1 p.2).2) acc1)
        (pages.foldl (fun acc p =>
          Index.dictInsert acc (Index.getSaveInfo ord2 p.2).1
            (Index.getSaveInfo ord2 p.2).2) acc2) by
    exact hgen [] [] List.Forall₂.nil
  induction pages with
  | nil => intro acc1 acc2 hacc; exact hacc
  | cons p rest ih =>
    intro acc1 acc2 hacc
    simp only [List.foldl_cons]
    exact ih _ _ (dictInsert_rel hacc p.2.title rfl
      ((h1 p.2.paths).trans (h2 p.2.paths).symm))

/-- Claim C9, counterexample.  The cache bytes are *not* a function of the
input tree alone: `"paths": list(self._paths)` enumerates a Python set of
strings, whose iteration order varies between interpreter runs (string
hashing is seed-randomised).  For the two-location page built from `walkA`
and `walkBsame`, two legitimate enumeration orders of the same path set
yield different serialized cache text. -/
theorem c9_counterexample :
    Index.indexPages [] [walkA, walkBsame] = .ok samplePagesTwoPaths ∧
      (∀ l : List Str, List.Perm l.reverse l) ∧
      Index.dumpStr (fun l => l) samplePagesTwoPaths ≠
        Index.dumpStr (fun l => l.reverse) samplePagesTwoPaths :=
  ⟨rfl, fun l => List.reverse_perm l, by decide⟩

/-- Claim C9 (corrected).  Up to the run-dependent enumeration order of
each record's path set, the written cache is deterministic: for any two
orderings of the path sets (each a permutation, as set enumeration is),
the caches built from the same walk have pointwise equal keys, equal
modification values, and path lists that are permutations of each other. -/
theorem c9_cache_unique_up_to_set_order (ord1 ord2 : List Str → List Str)
    (h1 : ∀ l, List.Perm (ord1 l) l) (h2 : ∀ l, List.Perm (ord2 l) l)
    (pages : List (Str × Index.IdxPage)) :
    List.Forall₂ cacheRecordSimilar (Index.cacheEntries ord1 pages)
      (Index.cacheEntries ord2 pages) :=
  cacheEntries_rel ord1 ord2 h1 h2 pages

/-- Claim C9, witness: the identity and reversal enumerations of the path
sets of the concrete two-path page record. -/
theorem c9_cache_unique_up_to_set_order_witness :
    List.Forall₂ cacheRecordSimilar
      (Index.cacheEntries (fun l => l) samplePagesTwoPaths)
      (Index.cacheEntries (fun l => l.reverse) samplePagesTwoPaths) :=
  c9_cache_unique_up_to_set_order (fun l => l) (fun l => l.reverse)
    (fun l => List.Perm.refl l) (fun l => List.reverse_perm l)
    samplePagesTwoPaths

/-! ### Claims C5, C6, C10: the search engine -/

theorem get_append_cons (A : List α) (t : α) (r : List α) :
    (A ++ t :: r).get? A.length = some t := by
  induction A with
  | nil => rfl
  | cons a as ih => simpa using ih

theorem eraseIdx_append_cons (A : List α) (t : α) (r : List α) :
    (A ++ t :: r).eraseIdx A.length = A ++ r := by
  induction A with
  | nil => rfl
  | cons a as ih => simpa [List.eraseIdx] using ih

theorem pyInsert_append (P : List α) (t : α) (Q : List α) :
    Discoverability.pyInsert P.length t (P ++ Q) = P ++ t :: Q := by
  induction P with
  | nil => rfl
  | cons p ps ih => simpa [Discoverability.pyInsert] using ih

theorem startsWithStr_refl (s : Str) : startsWithStr s s = true := by
  induction s with
  | nil => rfl
  | cons c cs ih => simp [startsWithStr, ih]

theorem containsStr_refl (s : Str) : containsStr s s = true := by
  cases s with
  | nil => rfl
  | cons c cs => simp [containsStr, startsWithStr_refl]

theorem ppLoop_characterize (query : Str) :
    ∀ (rest E S N : List Str), (∀ t ∈ rest, pySplitWs t ≠ []) →
    Discoverability.ppLoop query rest.length
        (E.reverse ++ S ++ N ++ rest) (E.length + S.length)
        (E.length + S.length + N.length) =
      .ok ((E ++ rest.filter (Discoverability.isExactMatch query)).reverse ++
           (S ++ rest.filter (Discoverability.isSubMatch query)) ++
           (N ++ rest.filter (Discoverability.isNonMatch query))) := by
  intro rest
  induction rest with
  | nil =>
    intro E S N htok
    simp [Discoverability.ppLoop]
  | cons t rest' ih =>
    intro E S N htok
    have htt : pySplitWs t ≠ [] := htok t (List.mem_cons_self t rest')
    have htokrest : ∀ u ∈ rest', pySplitWs u ≠ [] :=
      fun u hu => htok u (List.mem_cons_of_mem t hu)
    cases htok' : pySplitWs t with
    | nil => exact absurd htok' htt
    | cons tok toks =>
      have hget : (E.reverse ++ S ++ N ++ t :: rest').get?
          (E.length + S.length + N.length) = some t := by
        have h0 := get_append_cons (E.reverse ++ (S ++ N)) t rest'
        simpa [Nat.add_assoc] using h0
      have herase : (E.reverse ++ S ++ N ++ t :: rest').eraseIdx
          (E.length + S.length + N.length) = E.reverse ++ S ++ N ++ rest' := by
        have h0 := eraseIdx_append_cons (E.reverse ++ (S ++ N)) t rest'
        simpa [Nat.add_assoc] using h0
      simp only [List.length_cons, Discoverability.ppLoop, Discoverability.ppStep,
        hget, htok']
      by_cases hcont : containsStr query tok = true
      · by_cases heq : query = tok
        · rw [if_pos hcont, if_pos heq]
          simp only [Except.bind, herase]
          have hstep : t :: (E.reverse ++ S ++ N ++ rest')
              = (E ++ [t]).reverse ++ S ++ N ++ rest' := by
            simp
          rw [hstep]
          have harith1 : E.length + S.length + 1 = (E ++ [t]).length + S.length := by
            simp only [List.length_append, List.length_cons, List.length_nil]
            omega
          have harith2 : E.length + S.length + N.length + 1
              = (E ++ [t]).length + S.length + N.length := by
            simp only [List.length_append, List.length_cons, List.length_nil]
            omega
          rw [harith1, harith2, ih (E ++ [t]) S N htokrest]
          have hE : Discoverability.isExactMatch query t = true := by
            simp [Discoverability.isExactMatch, Discoverability.firstTok, htok', heq]
          have hS : Discoverability.isSubMatch query t = false := by
            simp [Discoverability.isSubMatch, Discoverability.firstTok, htok', heq]
          have hN : Discoverability.isNonMatch query t = false := by
            simp [Discoverability.isNonMatch, Discoverability.firstTok, htok', hcont]
          simp [List.filter_cons, hE, hS, hN]
        · rw [if_pos hcont, if_neg heq]
          simp only [Except.bind, herase]
          have hstep : Discoverability.pyInsert (E.length + S.length) t
              (E.reverse ++ S ++ N ++ rest')
              = E.reverse ++ (S ++ [t]) ++ N ++ rest' := by
            have h0 := pyInsert_append (E.reverse ++ S) t (N ++ rest')
            simpa [Nat.add_assoc] using h0
          rw [hstep]
          have harith1 : E.length + S.length + 1 = E.length + (S ++ [t]).length := by
            simp only [List.length_append, List.length_cons, List.length_nil]
            omega
          have harith2 : E.length + S.length + N.length + 1
              = E.length + (S ++ [t]).length + N.length := by
            simp only [List.length_append, List.length_cons, List.length_nil]
            omega
          rw [harith1, harith2, ih E (S ++ [t]) N htokrest]
          have hE : Discoverability.isExactMatch query t = false := by
            simp [Discoverability.isExactMatch, Discoverability.firstTok, htok', heq]
          have hS : Discoverability.isSubMatch query t = true := by
            simp [Discoverability.isSubMatch, Discoverability.firstTok, htok', heq, hcont]
          have hN : Discoverability.isNonMatch query t = false := by
            simp [Discoverability.isNonMatch, Discoverability.firstTok, htok', hcont]
          simp [List.filter_cons, hE, hS, hN]
      · rw [if_neg hcont]
        simp only [Except.bind]
        have hstep : E.reverse ++ S ++ N ++ t :: rest'
            = E.reverse ++ S ++ (N ++ [t]) ++ rest' := by
          simp
        rw [hstep]
        have harith2 : E.length + S.length + N.length + 1
            = E.length + S.length + (N ++ [t]).length := by
          simp only [List.length_append, List.length_cons, List.length_nil]
          omega
        rw [harith2, ih E S (N ++ [t]) htokrest]
        have hqt : query ≠ tok := fun heq => by
          rw [heq] at hcont
          exact hcont (containsStr_refl tok)
        have hE : Discoverability.isExactMatch query t = false := by
          simp [Discoverability.isExactMatch, Discoverability.firstTok, htok', hqt]
        have hS : Discoverability.isSubMatch query t = false := by
          simp [Discoverability.isSubMatch, Discoverability.firstTok, htok', hcont]
        have hN : Discoverability.isNonMatch query t = true := by
          simp [Discoverability.isNonMatch, Discoverability.firstTok, htok', hcont]
        simp [List.filter_cons, hE, hS, hN]

theorem post_process_characterize (query : Str) (orig : List Str)
    (h : ∀ t ∈ orig, pySplitWs t ≠ []) :
    Discoverability.post_process_search query orig =
      .ok ((orig.filter (Discoverability.isExactMatch query)).reverse ++
           orig.filter (Discoverability.isSubMatch query) ++
           orig.filter (Discoverability.isNonMatch query)) := by
  have h0 := ppLoop_characterize query orig [] [] [] h
  simpa [Discoverability.post_process_search] using h0

theorem count_filter_ite {α : Type} [BEq α] [LawfulBEq α] (a : α) (p : α → Bool)
    (l : List α) :
    List.count a (l.filter p) = if p a = true then List.count a l else 0 := by
  split
  · rename_i hp
    exact List.count_filter hp
  · rename_i hp
    refine List.count_eq_zero.mpr ?_
    intro hmem
    exact hp (List.of_mem_filter hmem)

theorem class_sum (q a : Str) (c : Nat) (h : pySplitWs a = [] → c = 0) :
    (if Discoverability.isExactMatch q a = true then c else 0) +
      (if Discoverability.isSubMatch q a = true then c else 0) +
      (if Discoverability.isNonMatch q a = true then c else 0) = c := by
  cases htok : pySplitWs a with
  | nil =>
    simp [Discoverability.isExactMatch, Discoverability.isSubMatch,
      Discoverability.isNonMatch, Discoverability.firstTok, htok, h htok]
  | cons tok toks =>
    by_cases hcont : containsStr q tok = true
    · by_cases heq : q = tok
      · simp [Discoverability.isExactMatch, Discoverability.isSubMatch,
          Discoverability.isNonMatch, Discoverability.firstTok, htok, hcont, heq,
          containsStr_refl]
      · simp [Discoverability.isExactMatch, Discoverability.isSubMatch,
          Discoverability.isNonMatch, Discoverability.firstTok, htok, hcont, heq]
    · have hqt : q ≠ tok := fun heq => by
        rw [heq] at hcont
        exact hcont (containsStr_refl tok)
      simp [Discoverability.isExactMatch, Discoverability.isSubMatch,
        Discoverability.isNonMatch, Discoverability.firstTok, htok, hcont, hqt]

theorem filter_three_perm (query : Str) (orig : List Str)
    (h : ∀ t ∈ orig, pySplitWs t ≠ []) :
    List.Perm
      ((orig.filter (Discoverability.isExactMatch query)).reverse ++
       orig.filter (Discoverability.isSubMatch query) ++
       orig.filter (Discoverability.isNonMatch query)) orig := by
  refine List.perm_iff_count.mpr (fun a => ?_)
  simp only [List.count_append, List.count_reverse, count_filter_ite]
  refine class_sum query a _ (fun hnil => ?_)
  exact (@List.count_eq_zero Str instBEqOfDecidableEq inferInstance a orig).mpr
    (fun ha => h a ha hnil)

theorem pyInsert_length {α : Type} :
    ∀ (n : Nat) (a : α) (l : List α),
      (Discoverability.pyInsert n a l).length = l.length + 1
  | 0, a, l => rfl
  | n + 1, a, [] => rfl
  | n + 1, a, x :: l => by
    simp [Discoverability.pyInsert, pyInsert_length n a l]

theorem ppStep_length {query : Str} {rs : List Str} {mc idx : Nat}
    {rs' : List Str} {mc' : Nat}
    (h : Discoverability.ppStep query rs mc idx = .ok (rs', mc')) :
    rs'.length = rs.length := by
  unfold Discoverability.ppStep at h
  split at h
  · cases h
  · rename_i real hg
    have hidx : idx < rs.length := List.get?_eq_some.mp hg |>.fst
    have hel : (rs.eraseIdx idx).length = rs.length - 1 := by
      rw [List.length_eraseIdx rs idx, if_pos hidx]
    split at h
    · cases h
    · split at h
      · split at h
        · cases h
          simp only [List.length_cons, hel]
          omega
        · cases h
          simp only [pyInsert_length, hel]
          omega
      · cases h
        rfl

theorem ppLoop_length {query : Str} :
    ∀ (n : Nat) (rs : List Str) (mc idx : Nat) (out : List Str),
      Discoverability.ppLoop query n rs mc idx = .ok out →
      out.length = rs.length
  | 0, rs, mc, idx, out, h => by
    cases h
    rfl
  | n + 1, rs, mc, idx, out, h => by
    unfold Discoverability.ppLoop at h
    cases hs : Discoverability.ppStep query rs mc idx with
    | error e => rw [hs] at h; cases h
    | ok p =>
      rw [hs] at h
      simp only [Except.bind] at h
      have h1 := ppLoop_length n p.1 p.2 (idx + 1) out h
      cases p with
      | mk rs1 mc1 =>
        have h2 : rs1.length = rs.length := ppStep_length hs
        simp only at h1
        omega

theorem insertSortedIdx_perm (scores : List Int) (i : Nat) :
    ∀ l : List Nat, List.Perm (Discoverability.insertSortedIdx scores i l) (i :: l)
  | [] => List.Perm.refl _
  | j :: js => by
    unfold Discoverability.insertSortedIdx
    split
    · exact List.Perm.refl _
    · exact ((insertSortedIdx_perm scores i js).cons j).trans (List.Perm.swap i j js)

theorem argsortIdx_perm (scores : List Int) :
    ∀ l : List Nat, List.Perm (Discoverability.argsortIdx scores l) l
  | [] => List.Perm.refl _
  | i :: is => by
    unfold Discoverability.argsortIdx
    exact (insertSortedIdx_perm scores i _).trans ((argsortIdx_perm scores is).cons i)

theorem argsort_perm (scores : List Int) :
    List.Perm (Discoverability.argsort scores) (List.range scores.length) :=
  argsortIdx_perm scores (List.range scores.length)

theorem insertSortedIdx_sorted (scores : List Int) (i : Nat) :
    ∀ l : List Nat,
      List.Pairwise (fun a b => scores.getD a 0 ≤ scores.getD b 0) l →
      List.Pairwise (fun a b => scores.getD a 0 ≤ scores.getD b 0)
        (Discoverability.insertSortedIdx scores i l)
  | [], _ => List.pairwise_singleton _ _
  | j :: js, h => by
    unfold Discoverability.insertSortedIdx
    rcases List.pairwise_cons.mp h with ⟨hj, hjs⟩
    split
    · rename_i hij
      refine List.pairwise_cons.mpr ⟨?_, h⟩
      intro x hx
      rcases List.mem_cons.mp hx with rfl | hxjs
      · exact hij
      · exact le_trans hij (hj x hxjs)
    · rename_i hij
      refine List.pairwise_cons.mpr ⟨?_, insertSortedIdx_sorted scores i js hjs⟩
      intro x hx
      have hx' : x ∈ i :: js := (insertSortedIdx_perm scores i js).mem_iff.mp hx
      rcases List.mem_cons.mp hx' with rfl | hxjs
      · exact le_of_not_le hij
      · exact hj x hxjs

theorem argsortIdx_sorted (scores : List Int) :
    ∀ l : List Nat,
      List.Pairwise (fun a b => scores.getD a 0 ≤ scores.getD b 0)
        (Discoverability.argsortIdx scores l)
  | [] => List.Pairwise.nil
  | i :: is => by
    unfold Discoverability.argsortIdx
    exact insertSortedIdx_sorted scores i _ (argsortIdx_sorted scores is)

theorem argsort_sorted (scores : List Int) :
    List.Pairwise (fun a b => scores.getD a 0 ≤ scores.getD b 0)
      (Discoverability.argsort scores) :=
  argsortIdx_sorted scores (List.range scores.length)

theorem topIdx_eq_drop (scores : List Int) (count : Nat) (h : 1 ≤ count) :
    Discoverability.topIdx scores count =
      ((Discoverability.argsort scores).drop
        ((Discoverability.argsort scores).length + 1 - count)).reverse := by
  unfold Discoverability.topIdx Discoverability.sliceLastRev
  rw [if_neg (by omega)]

theorem topIdx_length (scores : List Int) (count : Nat) (h : 1 ≤ count) :
    (Discoverability.topIdx scores count).length =
      min (count - 1) scores.length := by
  rw [topIdx_eq_drop scores count h]
  have hlen : (Discoverability.argsort scores).length = scores.length :=
    (argsort_perm scores).length_eq.trans (List.length_range _)
  simp only [List.length_reverse, List.length_drop, hlen]
  omega

theorem topIdx_sorted_desc (scores : List Int) (count : Nat) :
    List.Pairwise (fun i j => scores.getD j 0 ≤ scores.getD i 0)
      (Discoverability.topIdx scores count) := by
  have hs := argsort_sorted scores
  have hd : List.Pairwise (fun a b => scores.getD a 0 ≤ scores.getD b 0)
      ((Discoverability.argsort scores).drop
        ((Discoverability.argsort scores).length + 1 - count)) :=
    hs.sublist (List.drop_sublist _ _)
  have hd1 : List.Pairwise (fun a b => scores.getD a 0 ≤ scores.getD b 0)
      ((Discoverability.argsort scores).drop 1) :=
    hs.sublist (List.drop_sublist _ _)
  unfold Discoverability.topIdx Discoverability.sliceLastRev
  split
  · exact (List.pairwise_reverse).mpr hd1
  · exact (List.pairwise_reverse).mpr hd

theorem topIdx_mem_lt (scores : List Int) (count : Nat) (i : Nat)
    (hi : i ∈ Discoverability.topIdx scores count) : i < scores.length := by
  have hmem : i ∈ Discoverability.argsort scores := by
    unfold Discoverability.topIdx Discoverability.sliceLastRev at hi
    split at hi
    · exact List.mem_of_mem_drop (List.mem_reverse.mp hi)
    · exact List.mem_of_mem_drop (List.mem_reverse.mp hi)
  have := (argsort_perm scores).mem_iff.mp hmem
  exact List.mem_range.mp this

theorem topIdx_nodup (scores : List Int) (count : Nat) :
    (Discoverability.topIdx scores count).Nodup := by
  have hnd : (Discoverability.argsort scores).Nodup :=
    ((argsort_perm scores).nodup_iff).mpr (List.nodup_range _)
  unfold Discoverability.topIdx Discoverability.sliceLastRev
  split
  · exact (List.nodup_reverse).mpr (hnd.sublist (List.drop_sublist _ _))
  · exact (List.nodup_reverse).mpr (hnd.sublist (List.drop_sublist _ _))

theorem topIdx_dominates (scores : List Int) (count : Nat) (h : 1 ≤ count)
    (i : Nat) (hi : i ∈ Discoverability.topIdx scores count)
    (j : Nat) (hj : j < scores.length)
    (hnj : j ∉ Discoverability.topIdx scores count) :
    scores.getD j 0 ≤ scores.getD i 0 := by
  have htop := topIdx_eq_drop scores count h
  have hiA : i ∈ (Discoverability.argsort scores).drop
      ((Discoverability.argsort scores).length + 1 - count) := by
    rw [htop] at hi
    exact List.mem_reverse.mp hi
  have hjA : j ∈ Discoverability.argsort scores :=
    (argsort_perm scores).mem_iff.mpr (List.mem_range.mpr hj)
  have hjtake : j ∈ (Discoverability.argsort scores).take
      ((Discoverability.argsort scores).length + 1 - count) := by
    have hsplitA := List.take_append_drop
      ((Discoverability.argsort scores).length + 1 - count)
      (Discoverability.argsort scores)
    rw [← hsplitA] at hjA
    rcases List.mem_append.mp hjA with hjt | hjd
    · exact hjt
    · exfalso
      apply hnj
      rw [htop]
      exact List.mem_reverse.mpr hjd
  have hsorted := argsort_sorted scores
  rw [← List.take_append_drop
    ((Discoverability.argsort scores).length + 1 - count)
    (Discoverability.argsort scores)] at hsorted
  exact (List.pairwise_append.mp hsorted).2.2 j hjtake i hiA

theorem pySplitWsAux_ne_nil_cur :
    ∀ (s cur : Str), cur ≠ [] → pySplitWsAux cur s ≠ []
  | [], cur, h => by
    unfold pySplitWsAux
    rw [if_neg (by simpa using h)]
    simp
  | c :: rest, cur, h => by
    unfold pySplitWsAux
    split
    · split
      · rename_i hemp
        exact absurd (by simpa using hemp) h
      · simp
    · exact pySplitWsAux_ne_nil_cur rest (c :: cur) (by simp)

theorem pySplitWsAux_ne_nil_of_nonspace :
    ∀ s : Str, (∃ c ∈ s, pyIsSpaceChar c = false) → pySplitWsAux [] s ≠ []
  | [], h => by simp at h
  | c :: rest, h => by
    unfold pySplitWsAux
    split
    · rename_i hsp
      rw [if_pos (by rfl)]
      obtain ⟨d, hd, hds⟩ := h
      rcases List.mem_cons.mp hd with rfl | hdr
      · rw [hsp] at hds
        cases hds
      · exact pySplitWsAux_ne_nil_of_nonspace rest ⟨d, hdr, hds⟩
    · exact pySplitWsAux_ne_nil_cur rest [c] (by simp)

theorem pySplitWs_ne_nil_of_nonspace {t : Str}
    (h : ∃ c ∈ t, pyIsSpaceChar c = false) : pySplitWs t ≠ [] :=
  pySplitWsAux_ne_nil_of_nonspace t h

/-- Claim C10 (confirmed).  When every title has a first whitespace token
(at least one non-whitespace character), `post_process_search` succeeds and
returns a permutation of its input: same length, same multiset of titles,
nothing dropped or duplicated. -/
theorem c10_post_process_is_permutation (query : Str) (results : List Str)
    (h : ∀ t ∈ results, ∃ c ∈ t, pyIsSpaceChar c = false) :
    ∃ out, Discoverability.post_process_search query results = .ok out ∧
      List.Perm out results ∧ out.length = results.length := by
  have htok : ∀ t ∈ results, pySplitWs t ≠ [] :=
    fun t ht => pySplitWs_ne_nil_of_nonspace (h t ht)
  exact ⟨_, post_process_characterize query results htok,
    filter_three_perm query results htok,
    (filter_three_perm query results htok).length_eq⟩

/-- Claim C10, witness: the permutation property at a concrete query and
result list. -/
theorem c10_post_process_is_permutation_witness :
    ∃ out, Discoverability.post_process_search ['a'] [['b'], ['a']] = .ok out ∧
      List.Perm out [['b'], ['a']] ∧ out.length = 2 :=
  c10_post_process_is_permutation ['a'] [['b'], ['a']] (by decide)

/-- Claim C5 (corrected).  The rerank pass sends the input to
`reverse (exact matches) ++ substring matches ++ non-matches`: all
exact-token matches come first (in *reverse* encounter order, so the last
one found sits at position 0), then the proper-substring matches in their
original relative order, then everything else in original order.  When
exactly one result's first token equals the query, that result is first.
With two or more exact matches, only the last ends at position 0 — the
claim's universal "ends at position 0" fails. -/
theorem c5_rerank_orders_matches :
    (∀ (query : Str) (results : List Str),
      (∀ t ∈ results, pySplitWs t ≠ []) →
      Discoverability.post_process_search query results =
        .ok ((results.filter (Discoverability.isExactMatch query)).reverse ++
             results.filter (Discoverability.isSubMatch query) ++
             results.filter (Discoverability.isNonMatch query))) ∧
    (∀ (query : Str) (results : List Str) (e : Str),
      (∀ t ∈ results, pySplitWs t ≠ []) →
      results.filter (Discoverability.isExactMatch query) = [e] →
      ∃ rest, Discoverability.post_process_search query results =
        .ok (e :: rest)) :=
  ⟨post_process_characterize,
   fun query results e htok hfe => by
     have h0 := post_process_characterize query results htok
     rw [hfe] at h0
     exact ⟨_, by simpa using h0⟩⟩

/-- Claim C5, counterexample.  With the query `a` and the two candidate
titles `a x` and `a y` — both of whose first token is exactly `a` — the
result is `[a y, a x]`: the exact match `a x` ends at position 1, not
position 0 as the claim requires of every exact match. -/
theorem c5_counterexample :
    Discoverability.post_process_search ['a'] [['a', ' ', 'x'], ['a', ' ', 'y']] =
        .ok [['a', ' ', 'y'], ['a', ' ', 'x']] ∧
      Discoverability.isExactMatch ['a'] ['a', ' ', 'x'] = true ∧
      (['a', ' ', 'y'] : Str) ≠ ['a', ' ', 'x'] :=
  ⟨rfl, rfl, by decide⟩

/-- Claim C5, witness: searching `ls` over the titles `grep (1)` and
`ls (1)` puts `ls (1)` first. -/
theorem c5_rerank_orders_matches_witness :
    ∃ rest, Discoverability.post_process_search ['l', 's']
        [['g', 'r', 'e', 'p', ' ', '(', '1', ')'],
         ['l', 's', ' ', '(', '1', ')']] =
      .ok (['l', 's', ' ', '(', '1', ')'] :: rest) :=
  c5_rerank_orders_matches.2 ['l', 's']
    [['g', 'r', 'e', 'p', ' ', '(', '1', ')'], ['l', 's', ' ', '(', '1', ')']]
    ['l', 's', ' ', '(', '1', ')'] (by decide) (by decide)

/-- Claim C6 (confirmed, for a requested count of at least 1).
`search_cosine` maps the selected indices to corpus titles, and the
selected indices are exactly the `min (count − 1) n` highest-scoring
document indices in descending score order: their number is
`min (count − 1) n`, they are sorted by descending score, they are
pairwise distinct, and every unselected document scores no higher than any
selected one.  Consequently the search command, which calls the search with
`count = 20`, produces at most 19 result titles. -/
theorem c6_top_count_minus_one_selection :
    (∀ (scores : List Int) (count : Nat) (corpus : List (Str × Str)),
      Discoverability.search_cosine scores count corpus =
        (Discoverability.topIdx scores count).map
          (fun idx => (corpus.getD idx ([], [])).1)) ∧
    (∀ (scores : List Int) (count : Nat), 1 ≤ count →
      (Discoverability.topIdx scores count).length =
        min (count - 1) scores.length) ∧
    (∀ (scores : List Int) (count : Nat),
      List.Pairwise (fun i j => scores.getD j 0 ≤ scores.getD i 0)
        (Discoverability.topIdx scores count)) ∧
    (∀ (scores : List Int) (count : Nat),
      (Discoverability.topIdx scores count).Nodup) ∧
    (∀ (scores : List Int) (count : Nat), 1 ≤ count →
      ∀ i ∈ Discoverability.topIdx scores count,
      ∀ j < scores.length, j ∉ Discoverability.topIdx scores count →
      scores.getD j 0 ≤ scores.getD i 0) ∧
    (∀ (scores : List Int) (query : Str) (corpus : List (Str × Str))
        (out : List Str),
      Discoverability.full_search scores query 20 corpus = .ok out →
      out.length ≤ 19) := by
  refine ⟨fun _ _ _ => rfl, topIdx_length, topIdx_sorted_desc, topIdx_nodup,
    ?_, ?_⟩
  · intro scores count hc i hi j hj hnj
    exact topIdx_dominates scores count hc i hi j hj hnj
  · intro scores query corpus out hfs
    unfold Discoverability.full_search Discoverability.post_process_search at hfs
    have hlen := ppLoop_length _ _ _ _ _ hfs
    have hsc : (Discoverability.search_cosine scores 20 corpus).length =
        min 19 scores.length := by
      unfold Discoverability.search_cosine
      rw [List.length_map, topIdx_length scores 20 (by omega)]
    omega

/-- Claim C6, witness: the selection bound at concrete scores, and the
19-line bound on a concrete `full_search` run with `count = 20`. -/
theorem c6_top_count_minus_one_selection_witness :
    (Discoverability.topIdx [3, 1, 2] 20).length = min 19 3 ∧
      ([['a'], ['c'], ['b']] : List Str).length ≤ 19 :=
  ⟨c6_top_count_minus_one_selection.2.1 [3, 1, 2] 20 (by omega),
   c6_top_count_minus_one_selection.2.2.2.2.2 [3, 1, 2] ['a'] [(['a'], []), (['b'], []), (['c'], [])]
     [['a'], ['c'], ['b']] rfl⟩
